import Mathlib

/-!
Verification development for the `translator` Go package
(lcapuano-app/go-googletrans).

The repository's `translate.go` (request construction, translation /
detection calls, language-table handling) is embedded directly.  The token
derivation subsystem (the `tokenAcquirer` and its key-pair store) and the
constants file (`languages`, `defaultLanguage`, `defaultServiceUrls`,
`defaultUserAgent`) are not among the provided sources; definitions for
those parts are modelled from the specification and are marked as such in
their doc comments.

Machine integers are modelled as `Nat` / `Int` with explicit reduction
modulo `2 ^ 32` / `2 ^ 64` where the algorithm relies on fixed-width
wraparound.
-/

namespace Translator

/-! ### Fixed-width integer helpers -/

/-- Low 32 bits of a (signed) integer, read as an unsigned value in
`[0, 2^32)`.  `Int.emod` with a positive modulus is always non-negative. -/
def toU32 (x : Int) : Nat := (x.emod 4294967296).toNat

/-- Low 64 bits of a (signed) integer, read as an unsigned value in
`[0, 2^64)`. -/
def toU64 (x : Int) : Nat := (x.emod 18446744073709551616).toNat

/-- Reinterpret an unsigned 64-bit value as a two's-complement signed
integer. -/
def ofU64 (n : Nat) : Int :=
  if n < 9223372036854775808 then (n : Int) else (n : Int) - 18446744073709551616

/-- Two's-complement XOR of two 64-bit signed integers (Go's `^` on
`int64`). -/
def xor64 (x y : Int) : Int := ofU64 (toU64 x ^^^ toU64 y)

/-! ### Decimal printing

The token and error messages embed decimal renderings of integers.  The
missing Go source prints them with `fmt` (`%d`); `decimalNat` /
`decimalInt` reproduce standard decimal notation (most significant digit
first, a leading `-` for negative integers).  The fuel argument of
`decimalListAux` is structural; `n + 1` fuel always suffices. -/

def decimalListAux : Nat → Nat → List Char
  | 0, _ => []
  | fuel + 1, n =>
    if n = 0 then []
    else decimalListAux fuel (n / 10) ++ [Char.ofNat (48 + n % 10)]

/-- Decimal digits of `n`, most significant first. -/
def decimalList (n : Nat) : List Char :=
  if n = 0 then ['0'] else decimalListAux (n + 1) n

/-- Decimal rendering of a natural number. -/
def decimalNat (n : Nat) : String := ⟨decimalList n⟩

/-- Decimal rendering of an integer (Go `%d` on `int64`): a `-` sign
followed by the digits of the absolute value when negative. -/
def decimalInt (i : Int) : String :=
  if i < 0 then "-" ++ decimalNat i.natAbs else decimalNat i.natAbs

/-! ### Token Transform (modelled from the spec)

Modelled from the spec: the Go source implementing the token transform
(the `tokenAcquirer`'s hash) is not among the provided files; §4.2 of the
specification defines it bit for bit. -/

/-- Modelled from the spec: UTF-16 code-unit expansion of a sequence of
Unicode scalar values (§4.2 step 1).  A scalar value `≤ 0xFFFF` is emitted
unchanged; a larger one is emitted as the high surrogate
`(value >>> 10) + 0xD800` followed by the low surrogate
`(value % 0x400) + 0xDC00`. -/
def expand : List Nat → List Nat
  | [] => []
  | v :: rest =>
    if v ≤ 0xFFFF then v :: expand rest
    else ((v >>> 10) + 0xD800) :: ((v % 0x400) + 0xDC00) :: expand rest

/-- Modelled from the spec: magnitude of the third character of a mix
micro-op — ASCII value minus 87 for a lowercase letter, else the digit's
numeric value (§4.2). -/
def magnitude (c : Char) : Nat :=
  if 'a' ≤ c then c.toNat - 87 else c.toNat - 48

/-- Modelled from the spec: one `(combineOp, shiftDirOp, magnitudeChar)`
micro-op of the mix routine, on a 32-bit accumulator (§4.2).  `+` as shift
direction is an unsigned right shift; otherwise a left shift wrapped to 32
bits.  `+` as combine op is a 32-bit wrapping add; otherwise XOR. -/
def mixStep (acc : Nat) (combineOp shiftDirOp magnitudeChar : Char) : Nat :=
  let d := magnitude magnitudeChar
  let shifted := if shiftDirOp = '+' then acc >>> d else (acc <<< d) % 4294967296
  if combineOp = '+' then (acc + shifted) % 4294967296 else acc ^^^ shifted

/-- Modelled from the spec: the mix routine — the program string is
processed three characters at a time (§4.2). -/
def mix (acc : Nat) : List Char → Nat
  | c1 :: c2 :: c3 :: rest => mix (mixStep acc c1 c2 c3) rest
  | _ => acc

/-- Modelled from the spec: the accumulator of `Derive` after step 7 of
§4.2 — an unsigned value in `[0, 1_000_000)`.  The accumulator is kept as
an unsigned 32-bit residue; step 6's remap of a negative signed-32 value
`(acc AND 0x7FFFFFFF) + 0x80000000` is written on that representation
(where it re-assembles the same unsigned value). -/
def deriveAcc (text : List Nat) (a b : Int) : Nat :=
  let acc0 := toU32 a
  let accLoop := (expand text).foldl
    (fun acc u => mix ((acc + u) % 4294967296) "+-a^+6".data) acc0
  let acc1 := mix accLoop "+-3^+b+-f".data
  let acc2 := acc1 ^^^ toU32 b
  let acc3 := if 2147483648 ≤ acc2 then (acc2 &&& 2147483647) + 2147483648 else acc2
  acc3 % 1000000

/-- Modelled from the spec: `Derive` (§4.2) — the token text is
`decimal(acc) ++ "." ++ decimal(acc XOR pair.a)`, the XOR taken on the
64-bit signed pair field. -/
def derive (text : List Nat) (a b : Int) : String :=
  decimalNat (deriveAcc text a b) ++ "." ++ decimalInt (xor64 (deriveAcc text a b) a)

/-- `Derive` on a Lean string: Lean `Char`s are exactly Unicode scalar
values, the input domain of §4.2. -/
def deriveString (s : String) (a b : Int) : String :=
  derive (s.data.map Char.toNat) a b

/-- `c` is a decimal digit (the character class `\d` of the spec's token
pattern). -/
def isDigitCh (c : Char) : Bool := '0' ≤ c && c ≤ '9'

/-- Decides the spec's token pattern `^\d+\.\d+$`: one or more digits, a
single dot, one or more digits, and nothing else. -/
def tokenWellFormed (s : String) : Bool :=
  (!(s.data.takeWhile (fun c => c != '.')).isEmpty) &&
  (s.data.takeWhile (fun c => c != '.')).all isDigitCh &&
  (match s.data.dropWhile (fun c => c != '.') with
   | '.' :: second => (!second.isEmpty) && second.all isDigitCh
   | _ => false)

/-! ### Key-Pair Store (modelled from the spec)

Modelled from the spec: the Go source of the `tokenAcquirer` (the
`Token(host, client)` service and its `do` method used by `getReq`) is not
among the provided files; §4.1 and §6 of the specification give its
contract. -/

/-- Outcome of the host-page fetch issued by the Key-Pair Store. -/
inductive FetchResult where
  | transportError (e : String)
  | response (status : Nat) (body : String)

/-- The apostrophe character that quotes the embedded key pair. -/
def quoteCh : Char := Char.ofNat 39

/-- Modelled from the spec: parse `<int>.<int>` followed by a closing
quote, as found right after `:'` in the host page (§4.1). -/
def parsePairAt (l : List Char) : Option (Int × Int) :=
  let ds1 := l.takeWhile isDigitCh
  let r1 := l.dropWhile isDigitCh
  if ds1.isEmpty then none
  else
    match r1 with
    | c :: r2 =>
      if c = '.' then
        let ds2 := r2.takeWhile isDigitCh
        let r3 := r2.dropWhile isDigitCh
        if ds2.isEmpty then none
        else
          match r3 with
          | q :: _ =>
            if q = quoteCh then
              some ((ds1.foldl (fun n d => n * 10 + (d.toNat - 48)) 0 : Nat),
                    (ds2.foldl (fun n d => n * 10 + (d.toNat - 48)) 0 : Nat))
            else none
          | [] => none
      else none
    | [] => none

/-- Modelled from the spec: scan a page body for an embedded assignment of
the form `key-name:'<integer>.<integer>'` (§4.1) and return the two
integers. -/
def scanKeyPair : List Char → Option (Int × Int)
  | [] => none
  | c :: rest =>
    if c = ':' then
      match rest with
      | q :: after =>
        if q = quoteCh then
          match parsePairAt after with
          | some p => some p
          | none => scanKeyPair rest
        else scanKeyPair rest
      | [] => none
    else scanKeyPair rest

/-- Modelled from the spec: key-pair extraction from the fetched page
body. -/
def parseKeyPair (body : String) : Option (Int × Int) :=
  scanKeyPair body.data

/-- Modelled from the spec: the deterministic synthetic fallback pair —
an hour-granularity wall-clock counter used as both `a` and `b`
(§4.1). -/
def syntheticPair (nowHours : Nat) : Int × Int :=
  ((nowHours : Int), (nowHours : Int))

/-- Modelled from the spec: `Current()` of the Key-Pair Store (§4.1, §7).
A non-2xx status or an unparsable 2xx body is absorbed by falling back to
the synthetic pair; no branch produces an error. -/
def storeCurrent (fetch : FetchResult) (nowHours : Nat) : Except String (Int × Int) :=
  match fetch with
  | .transportError _ => .ok (syntheticPair nowHours)
  | .response status body =>
    if 200 ≤ status ∧ status < 300 then
      match parseKeyPair body with
      | some p => .ok p
      | none => .ok (syntheticPair nowHours)
    else .ok (syntheticPair nowHours)

/-- The pair component of `storeCurrent`'s answer (the `.error` arm is
unreachable; see `storeCurrent_eq_ok`). -/
def currentPair (fetch : FetchResult) (nowHours : Nat) : Int × Int :=
  match storeCurrent fetch nowHours with
  | .ok p => p
  | .error _ => (0, 0)

/-- Modelled from the spec: the token acquirer's `do` — obtain the current
pair from the Store and run the Token Transform on the request text
(§2, §6). -/
def taDo (fetch : FetchResult) (nowHours : Nat) (text : String) : Except String String :=
  match storeCurrent fetch nowHours with
  | .error e => .error e
  | .ok p => .ok (deriveString text p.1 p.2)

/-! ### Key-pair cache (modelled from the spec)

Modelled from the spec: §4.1's caching requirement — fetch once lazily,
keep the parsed pair until process restart or an explicit invalidation. -/

/-- Cache of the Key-Pair Store: the pair from the last successful
derivation, if any. -/
structure StoreState where
  cached : Option (Int × Int)
deriving DecidableEq

/-- Modelled from the spec: one call to `Current()` against the cache.
Returns the pair handed to the transform, the new cache state, and the
number of page fetches issued by this call (`0` or `1`).  A fetch is
issued only on a cache miss. -/
def storeCall (st : StoreState) (fetch : FetchResult) (nowHours : Nat) :
    (Int × Int) × StoreState × Nat :=
  match st.cached with
  | some p => (p, st, 0)
  | none =>
    let p := currentPair fetch nowHours
    (p, ⟨some p⟩, 1)

/-- Run a sequence of `Current()` calls, threading the cache; returns the
pairs handed out, the final state, and the total number of fetches. -/
def runCalls (st : StoreState) : List (FetchResult × Nat) →
    List (Int × Int) × StoreState × Nat
  | [] => ([], st, 0)
  | (f, n) :: rest =>
    let r := storeCall st f n
    let rr := runCalls r.2.1 rest
    (r.1 :: rr.1, rr.2.1, r.2.2 + rr.2.2)

/-! ### Request construction (`translate.go`) -/

/-- An outbound HTTP request as assembled by `getReq`: method, URL, and
the query parameters in the order they are added (`url.Values.Encode`
later serialises them sorted by key, preserving per-key value order). -/
structure GoRequest where
  method : String
  url : String
  query : List (String × String)
deriving DecidableEq

/-- `buildParams` of `translate.go`: the Go map literal holds exactly
these six entries (map iteration order is irrelevant to their multiset). -/
def buildParams (query src dest token : String) : List (String × String) :=
  [("client", "gtx"), ("sl", src), ("tl", dest), ("hl", dest),
   ("tk", token), ("q", query)]

/-- `getReq` of `translate.go`: ask the token acquirer for `tk` (an error
there would be returned to the caller), then build the GET request against
`https://<host>/translate_a/single` with `buildParams` plus the fixed
response-shape flags. -/
def getReq (fetch : FetchResult) (nowHours : Nat) (host origin src dest : String) :
    Except String GoRequest :=
  match taDo fetch nowHours origin with
  | .error e => .error e
  | .ok tk =>
    let tranUrl := "https://" ++ host ++ "/translate_a/single"
    let q := buildParams origin src dest tk ++
      [("dt", "t"), ("dt", "bd"), ("dj", "1"), ("source", "popup")]
    .ok { method := "GET", url := tranUrl, query := q }

/-! ### The internal `translate` method (`translate.go`) -/

/-- One decoded sentence of the response JSON. -/
structure Sentence where
  trans : String
  orig : String
  backend : Int

/-- The decoded `sentences` response object. -/
structure Sentences where
  sentences : List Sentence

/-- Outcome of `client.Do` plus the subsequent `io.ReadAll` on the
response body. -/
inductive DoResult where
  | doError (e : String)
  | response (status : Nat) (bodyRead : Except String String)

/-- The error message built by `translate` on a non-200 status:
`fmt.Errorf("expected statusCode 200, got: %d; resp: %+v", ...)`.  The
`%+v` dump of the response struct is passed in as an opaque string. -/
def statusErrMsg (status : Nat) (respDump : String) : String :=
  "expected statusCode 200, got: " ++ decimalNat status ++ "; resp: " ++ respDump

/-- `translate` of `translate.go` (the internal method), with the effects
of `getReq`, `client.Do`/`io.ReadAll` and `json.Unmarshal` supplied as
inputs.  Result is the Go pair `(string, error)`, the error modelled as
`Option String`. -/
def translateStep (reqRes : Except String GoRequest) (doRes : DoResult)
    (unmarshalSentences : String → Except String Sentences) (respDump : String) :
    String × Option String :=
  match reqRes with
  | .error e => ("", some e)
  | .ok _ =>
    match doRes with
    | .doError e => ("", some e)
    | .response status bodyRead =>
      if status = 200 then
        match bodyRead with
        | .error e => ("", some e)
        | .ok body =>
          match unmarshalSentences body with
          | .error e => ("", some e)
          | .ok ss => (ss.sentences.foldl (fun acc s => acc ++ s.trans) "", none)
      else ("", some (statusErrMsg status respDump))

/-! ### `New` and its duplicated variant -/

/-- `Config` of `translate.go` / the duplicated file (field names as in
the source; slices become lists, the Go zero value is `⟨[], [], ""⟩`). -/
structure Config where
  ServiceUrls : List String
  UserAgent : List String
  Proxy : String
deriving DecidableEq

/-- The Go zero value of `Config`. -/
def zeroConfig : Config := ⟨[], [], ""⟩

/-- Modelled from the spec: `defaultUserAgent` lives in a constants file
that is not among the provided sources; its exact literal is unknown and
irrelevant to the claims proved here. -/
def defaultUserAgent : String := "default-user-agent"

/-- Modelled from the spec: `defaultServiceUrls` lives in the missing
constants file; the README only says default service URLs are used when
none are configured.  Its exact contents are irrelevant to the claims
proved here. -/
def defaultServiceUrls : List String := ["translate.google.com"]

/-- The effective configuration computed by `New` in `translate.go`:
`var c Config; if len(config) > 0 { c = config[0] }`, then empty
`ServiceUrls` / `UserAgent` are replaced by defaults.  `host` and
`userAgent` are then drawn from these lists and `Proxy` is read from this
value, so two calls with equal effective configurations build identically
distributed `Translator`s. -/
def effectiveConfigMain (config : List Config) : Config :=
  let c := if config.length > 0 then config.headD zeroConfig else zeroConfig
  let c := if c.ServiceUrls.isEmpty
    then { c with ServiceUrls := ["translate.google.com"] } else c
  let c := if c.UserAgent.isEmpty
    then { c with UserAgent := [defaultUserAgent] } else c
  c

/-- The effective configuration computed by `New` in the duplicated file
(src/unnamed/part_002): `var c Config` — the variadic `config` parameter
is never read, so `c` is always the zero value before default filling. -/
def effectiveConfigDup (config : List Config) : Config :=
  let c := zeroConfig
  let c := if c.ServiceUrls.isEmpty
    then { c with ServiceUrls := defaultServiceUrls } else c
  let c := if c.UserAgent.isEmpty
    then { c with UserAgent := [defaultUserAgent] } else c
  c

/-- A custom configuration exercising all three fields. -/
def customCfg : Config :=
  ⟨["custom.example.host"], ["custom-agent"], "http://proxy.example:8080"⟩

/-! ### The language table (`translate.go` + missing constants file)

A Go `map[string]string` is modelled as an association list with unique
keys: the list order stands for the (unspecified) `range` iteration
order, insertion updates an existing key in place or appends. -/

/-- Go map lookup. -/
def mapLookup (m : List (String × String)) (k : String) : Option String :=
  (m.find? (fun kv => kv.1 == k)).map (fun kv => kv.2)

/-- Go map insert: `m[k] = v`. -/
def mapInsert (m : List (String × String)) (k v : String) : List (String × String) :=
  if m.any (fun kv => kv.1 == k) then
    m.map (fun kv => if kv.1 == k then (k, v) else kv)
  else m ++ [(k, v)]

/-- Modelled from the spec: the package-level `languages` table lives in a
constants file that is not among the provided sources.  Modelled with a
representative subset of the Google language table; per the upstream
constant and the doc comment of `GetValidLanguageKey`
(`Returns key, nil || "auto", error`) it contains the `auto` key. -/
def languages : List (String × String) :=
  [("auto", "automatic"), ("en", "english"), ("es", "spanish"),
   ("pt", "portuguese"), ("zh-cn", "chinese (simplified)")]

/-- Modelled from the spec: `defaultLanguage` lives in the missing
constants file; the doc comment of `GetValidLanguageKey` in `translate.go`
(`Returns key, nil || "auto", error`) fixes it to `"auto"`. -/
def defaultLanguage : String := "auto"

/-- The package-level mutable state of `translate.go`: the `languages`
map. -/
structure PkgState where
  languages : List (String × String)
deriving DecidableEq

/-- `strings.ToLower` (agrees with Go on the ASCII range used here). -/
def goToLower (s : String) : String := ⟨s.data.map Char.toLower⟩

/-- `fmt.Errorf("invalid language '%s'", lang)` — built with explicit
quote characters. -/
def invalidLangMsg (lang : String) : String :=
  "invalid language " ++ ⟨[quoteCh]⟩ ++ lang ++ ⟨[quoteCh]⟩

/-- `GetValidLanguageKey` of `translate.go`: lower-case the input, walk
the `languages` map (`m` stands for one `range` order) and return the
first key whose key or value equals the input; otherwise return
`defaultLanguage` with an error.  The source passes the already lowered
`lang` to `fmt.Errorf`. -/
def GetValidLanguageKey (m : List (String × String)) (lang : String) :
    String × Option String :=
  let l := goToLower lang
  match m.find? (fun kv => kv.1 == l || kv.2 == l) with
  | some kv => (kv.1, none)
  | none => (defaultLanguage, some (invalidLangMsg l))

/-- `GetAvaliableLanguages` of `translate.go`: returns the package-level
map (the reference itself, not a copy). -/
def GetAvaliableLanguages (st : PkgState) : List (String × String) :=
  st.languages

/-! ### Go string helpers used by `GetAvaliableLanguagesHTTP`

Strings are handled as `List Char`; all markers sliced on are ASCII, so
Go's byte indices coincide with character indices on the inputs of
interest. -/

/-- Position search for `goIndex`. -/
def goIndexAux (pat : List Char) : List Char → Nat → Option Nat
  | [], i => if pat.isPrefixOf ([] : List Char) then some i else none
  | c :: t, i => if pat.isPrefixOf (c :: t) then some i else goIndexAux pat t (i + 1)

/-- `strings.Index`: index of the first occurrence of `pat`, `-1` when
absent. -/
def goIndex (s pat : List Char) : Int :=
  match goIndexAux pat s 0 with
  | some i => (i : Int)
  | none => -1

/-- Go slicing `s[i:j]`: defined only for `0 ≤ i ≤ j ≤ len s`; `none`
models the runtime panic outside those bounds. -/
def goSlice (s : List Char) (i j : Int) : Option (List Char) :=
  if 0 ≤ i ∧ i ≤ j ∧ j ≤ (s.length : Int) then
    some ((s.take j.toNat).drop i.toNat)
  else none

/-- Worker for `goReplaceAll`; the structural fuel argument starts at the
string length, enough since every step consumes at least one character. -/
def goReplaceAllAux (pat rep : List Char) : Nat → List Char → List Char
  | 0, s => s
  | fuel + 1, s =>
    if !pat.isEmpty && pat.isPrefixOf s then
      rep ++ goReplaceAllAux pat rep fuel (s.drop pat.length)
    else
      match s with
      | [] => []
      | c :: t => c :: goReplaceAllAux pat rep fuel t

/-- `strings.ReplaceAll` (non-empty pattern; the source only replaces
`<tbody>` markers). -/
def goReplaceAll (s pat rep : List Char) : List Char :=
  if pat.isEmpty then s else goReplaceAllAux pat rep s.length s

/-- Worker for `goSplit`; fuel as in `goReplaceAllAux`. -/
def goSplitAux (sep : List Char) : Nat → List Char → List Char → List (List Char)
  | 0, acc, s => [acc ++ s]
  | fuel + 1, acc, s =>
    if !sep.isEmpty && sep.isPrefixOf s then
      acc :: goSplitAux sep fuel [] (s.drop sep.length)
    else
      match s with
      | [] => [acc]
      | c :: t => goSplitAux sep fuel (acc ++ [c]) t

/-- `strings.Split` around non-overlapping occurrences of `sep`. -/
def goSplit (s sep : List Char) : List (List Char) :=
  if sep.isEmpty then s.map (fun c => [c]) else goSplitAux sep (s.length + 1) [] s

/-- The body of the `for _, tr := range trs` loop of
`GetAvaliableLanguagesHTTP`: extract `fullname` between `<td>` and
`</td>` and `shortname` as the two characters before `</code>`, skip the
row on a missing `<td>`/`</td>` or an empty name, and insert the lowered
pair into the map.  `none` models the slice-bounds panic (e.g. a row with
`<td>` but no `</code>`). -/
def processTr (m : List (String × String)) (tr : List Char) :
    Option (List (String × String)) :=
  let ini := goIndex tr "<td>".data
  let e := goIndex tr "</td>".data
  if ini < 0 ∨ e < 0 then some m
  else
    match goSlice tr (ini + 4) e with
    | none => none
    | some fullname =>
      if fullname.isEmpty then some m
      else
        let e2 := goIndex tr "</code>".data
        match goSlice tr (e2 - 2) e2 with
        | none => none
        | some shortname =>
          if shortname.isEmpty then some m
          else
            some (mapInsert m ⟨shortname.map Char.toLower⟩ ⟨fullname.map Char.toLower⟩)

/-- The page-scraping pipeline of `GetAvaliableLanguagesHTTP`: cut the
`<table>`/`<tbody>` region, strip the `<tbody>` markers, split on `<tr>`
and run the row loop over the (shared) map.  `none` models a slice-bounds
panic on a malformed page. -/
def scrapeLangs (m : List (String × String)) (body : List Char) :
    Option (List (String × String)) :=
  let ini := goIndex body "<table>".data
  let e := goIndex body "</table>".data
  match goSlice body ini e with
  | none => none
  | some table =>
    let ini2 := goIndex table "<tbody>".data
    let e2 := goIndex table "</tbody>".data
    match goSlice table ini2 e2 with
    | none => none
    | some tb =>
      let tb := goReplaceAll tb "<tbody>".data []
      let tb := goReplaceAll tb "</tbody>".data []
      let trs := goSplit tb "<tr>".data
      trs.foldlM processTr m

/-- Outcome of the HTTP GET (and body read) issued by
`GetAvaliableLanguagesHTTP`.  The source never checks `res.StatusCode`,
so only the body matters on a completed request. -/
inductive PageFetch where
  | doError (e : String)
  | readError (e : String)
  | page (body : String)

/-- `GetAvaliableLanguagesHTTP` of `translate.go`.  `httpLangs :=
languages` copies the Go map *reference*, so the row loop's inserts write
into the same table the package-level `languages` variable denotes; the
final `if overwriteDefaultLanguages { languages = httpLangs }` re-assigns
that same reference.  Returns the Go `(map, error)` pair and the new
package state; `none` models a slice-bounds panic. -/
def GetAvaliableLanguagesHTTP (st : PkgState) (fetch : PageFetch)
    (overwriteDefaultLanguages : Bool) :
    Option ((List (String × String) × Option String) × PkgState) :=
  let httpLangs := st.languages
  match fetch with
  | .doError e => some ((httpLangs, some e), st)
  | .readError e => some ((httpLangs, some e), st)
  | .page body =>
    match scrapeLangs httpLangs body.data with
    | none => none
    | some m =>
      let st' := if overwriteDefaultLanguages then PkgState.mk m else PkgState.mk m
      some ((m, none), st')

/-- A well-formed one-row language page, as scraped from the
documentation site. -/
def demoPage : String :=
  "<html><table><tbody><tr><td>Zulu</td><td><code>zu</code></td></tr></tbody></table></html>"

/-! ## Helper lemmas -/

theorem storeCurrent_eq_ok (fetch : FetchResult) (nowHours : Nat) :
    storeCurrent fetch nowHours = .ok (currentPair fetch nowHours) := by
  cases fetch with
  | transportError e => rfl
  | response status body =>
    by_cases h : 200 ≤ status ∧ status < 300
    · cases hp : parseKeyPair body <;> simp [storeCurrent, currentPair, h, hp]
    · simp [storeCurrent, currentPair, h]

theorem getReq_eq (fetch : FetchResult) (nowHours : Nat) (host origin src dest : String) :
    getReq fetch nowHours host origin src dest = .ok
      { method := "GET"
        url := "https://" ++ host ++ "/translate_a/single"
        query := [("client", "gtx"), ("sl", src), ("tl", dest), ("hl", dest),
          ("tk", deriveString origin (currentPair fetch nowHours).1
            (currentPair fetch nowHours).2),
          ("q", origin), ("dt", "t"), ("dt", "bd"), ("dj", "1"), ("source", "popup")] } := by
  simp [getReq, taDo, storeCurrent_eq_ok, buildParams]

theorem runCalls_cached (p : Int × Int) (calls : List (FetchResult × Nat)) :
    runCalls ⟨some p⟩ calls = (calls.map (fun _ => p), ⟨some p⟩, 0) := by
  induction calls with
  | nil => rfl
  | cons c rest ih =>
    obtain ⟨f, n⟩ := c
    simp [runCalls, storeCall, ih]

/-! ## Claims -/

/-- C1.  Key-pair fetch and parse failures are absorbed inside the
Key-Pair Store: on a non-2xx fetch, and on a 2xx fetch with an unparsable
body, `Current()` returns the synthetic fallback pair rather than an
error; on every fetch outcome it returns some pair, and consequently
`getReq` (hence `Translate`/`DetectLanguage`) never fails with a key-fetch
or key-parse error. -/
theorem claim_C1 :
    (∀ (status : Nat) (body : String) (nowHours : Nat),
        ¬(200 ≤ status ∧ status < 300) →
        storeCurrent (.response status body) nowHours = .ok (syntheticPair nowHours)) ∧
    (∀ (status : Nat) (body : String) (nowHours : Nat),
        200 ≤ status → status < 300 → parseKeyPair body = none →
        storeCurrent (.response status body) nowHours = .ok (syntheticPair nowHours)) ∧
    (∀ (fetch : FetchResult) (nowHours : Nat),
        ∃ p, storeCurrent fetch nowHours = Except.ok p) ∧
    (∀ (fetch : FetchResult) (nowHours : Nat) (host origin src dest : String),
        ∃ req, getReq fetch nowHours host origin src dest = Except.ok req) := by
  refine ⟨?_, ?_, ?_, ?_⟩
  · intro status body nowHours h
    simp [storeCurrent, h]
  · intro status body nowHours h1 h2 hp
    simp [storeCurrent, hp, h1, h2]
  · intro fetch nowHours
    exact ⟨_, storeCurrent_eq_ok fetch nowHours⟩
  · intro fetch nowHours host origin src dest
    exact ⟨_, getReq_eq fetch nowHours host origin src dest⟩

theorem claim_C1_witness :
    storeCurrent (.response 500 "server error page") 7 = .ok (syntheticPair 7) ∧
    storeCurrent (.response 200 "no key pair in body") 7 = .ok (syntheticPair 7) :=
  ⟨claim_C1.1 500 "server error page" 7 (by decide),
   claim_C1.2.1 200 "no key pair in body" 7 (by decide) (by decide) (by decide)⟩

/-- C2.  Every request built by `getReq` is a GET to
`https://<host>/translate_a/single` whose query parameters are exactly the
derived token under `tk` together with `client=gtx`, `sl=<src>`,
`tl=<dest>`, `hl=<dest>`, `q=<text>` and the fixed flags `dt=t`, `dt=bd`,
`dj=1`, `source=popup`. -/
theorem claim_C2 (fetch : FetchResult) (nowHours : Nat) (host origin src dest : String) :
    getReq fetch nowHours host origin src dest = .ok
      { method := "GET"
        url := "https://" ++ host ++ "/translate_a/single"
        query := [("client", "gtx"), ("sl", src), ("tl", dest), ("hl", dest),
          ("tk", deriveString origin (currentPair fetch nowHours).1
            (currentPair fetch nowHours).2),
          ("q", origin), ("dt", "t"), ("dt", "bd"), ("dj", "1"), ("source", "popup")] } :=
  getReq_eq fetch nowHours host origin src dest

/-- C3.  When the HTTP response to the actual translation call has a
status code other than 200, the internal `translate` method returns the
empty string together with a non-nil error reporting the received status
code. -/
theorem claim_C3 (req : GoRequest) (status : Nat) (bodyRead : Except String String)
    (unmarshalSentences : String → Except String Sentences) (respDump : String)
    (h : status ≠ 200) :
    translateStep (.ok req) (.response status bodyRead) unmarshalSentences respDump
      = ("", some (statusErrMsg status respDump)) := by
  simp [translateStep, h]

theorem claim_C3_witness :
    translateStep (.ok ⟨"GET", "u", []⟩) (.response 404 (.ok "{}"))
        (fun _ => .error "unused") "resp-dump"
      = ("", some (statusErrMsg 404 "resp-dump")) :=
  claim_C3 ⟨"GET", "u", []⟩ 404 (.ok "{}") (fun _ => .error "unused") "resp-dump" (by decide)

/-- C4.  For the key pair `(0, 0)` and the empty text, `Derive` returns
exactly the string `"0.0"`. -/
theorem claim_C4 : derive [] 0 0 = "0.0" := by decide

/-- C7.  The Key-Pair Store never issues a page fetch while it holds a
cached pair: a call against a populated cache returns the cached pair,
leaves the cache untouched and performs zero fetches; any sequence of
calls against a populated cache performs zero fetches in total; and after
one cache-miss call (one fetch) the parsed pair is reused by every
subsequent call. -/
theorem claim_C7 :
    (∀ (st : StoreState) (p : Int × Int) (fetch : FetchResult) (nowHours : Nat),
        st.cached = some p → storeCall st fetch nowHours = (p, st, 0)) ∧
    (∀ (p : Int × Int) (calls : List (FetchResult × Nat)),
        runCalls ⟨some p⟩ calls = (calls.map (fun _ => p), ⟨some p⟩, 0)) ∧
    (∀ (fetch : FetchResult) (nowHours : Nat) (calls : List (FetchResult × Nat)),
        runCalls ⟨none⟩ ((fetch, nowHours) :: calls) =
          (currentPair fetch nowHours :: calls.map (fun _ => currentPair fetch nowHours),
            ⟨some (currentPair fetch nowHours)⟩, 1)) := by
  refine ⟨?_, runCalls_cached, ?_⟩
  · intro st p fetch nowHours h
    obtain ⟨c⟩ := st
    simp only [StoreState.mk.injEq] at h ⊢
    subst h
    rfl
  · intro fetch nowHours calls
    simp [runCalls, storeCall, runCalls_cached]

theorem claim_C7_witness :
    storeCall ⟨some (3, 4)⟩ (.transportError "x") 9 = ((3, 4), ⟨some (3, 4)⟩, 0) :=
  claim_C7.1 ⟨some (3, 4)⟩ (3, 4) (.transportError "x") 9 rfl

/-- C8.  The two `New` implementations are not equivalent: the duplicated
one (src/unnamed/part_002) ignores its variadic `Config` argument, so
every custom configuration yields the same effective configuration as a
no-argument call, whereas `translate.go`'s `New` uses `config[0]`; on a
fully customised configuration the two effective configurations differ. -/
theorem claim_C8 :
    (∀ cfg : Config, effectiveConfigDup [cfg] = effectiveConfigDup []) ∧
    (∀ cfg : Config, cfg.ServiceUrls ≠ [] →
        (effectiveConfigMain [cfg]).ServiceUrls = cfg.ServiceUrls) ∧
    effectiveConfigMain [customCfg] ≠ effectiveConfigDup [customCfg] := by
  refine ⟨fun cfg => rfl, ?_, by decide⟩
  intro cfg h
  have hs : cfg.ServiceUrls.isEmpty = false := by
    cases hcase : cfg.ServiceUrls with
    | nil => exact absurd hcase h
    | cons _ _ => simp
  by_cases hu : cfg.UserAgent.isEmpty <;> simp [effectiveConfigMain, hs, hu]

theorem claim_C8_witness :
    (effectiveConfigMain [customCfg]).ServiceUrls = customCfg.ServiceUrls :=
  claim_C8.2.1 customCfg (by decide)

/-! ## Token format lemmas (towards C5) -/

theorem isDigitCh_ne_dot (c : Char) (h : isDigitCh c = true) : (c != '.') = true := by
  simp only [bne_iff_ne, ne_eq]
  intro hEq
  subst hEq
  simp only [isDigitCh] at h
  exact absurd h (by decide)

theorem decimalListAux_all (fuel : Nat) : ∀ (n : Nat) (c : Char),
    c ∈ decimalListAux fuel n → isDigitCh c = true := by
  induction fuel with
  | zero => intro n c hc; simp [decimalListAux] at hc
  | succ fuel ih =>
    intro n c hc
    by_cases hn : n = 0
    · simp [decimalListAux, hn] at hc
    · rw [decimalListAux, if_neg hn] at hc
      rcases List.mem_append.mp hc with hc | hc
      · exact ih _ c hc
      · have hc' : c = Char.ofNat (48 + n % 10) := by simpa using hc
        subst hc'
        have h10 : n % 10 < 10 := Nat.mod_lt _ (by norm_num)
        revert h10
        generalize n % 10 = d
        intro h10
        interval_cases d <;> decide

theorem decimalList_all (n : Nat) : ∀ c ∈ decimalList n, isDigitCh c = true := by
  intro c hc
  unfold decimalList at hc
  split at hc
  · simp at hc
    subst hc
    decide
  · exact decimalListAux_all _ _ c hc

theorem decimalList_isEmpty (n : Nat) : (decimalList n).isEmpty = false := by
  unfold decimalList
  split
  · rfl
  · rename_i hn
    rw [decimalListAux, if_neg hn]
    simp

theorem takeWhile_append_all (p : Char → Bool) (xs ys : List Char) (c : Char)
    (hxs : ∀ x ∈ xs, p x = true) (hc : p c = false) :
    (xs ++ c :: ys).takeWhile p = xs ∧ (xs ++ c :: ys).dropWhile p = c :: ys := by
  induction xs with
  | nil => simp [List.takeWhile, List.dropWhile, hc]
  | cons x xs ih =>
    have hx : p x = true := hxs x (by simp)
    have hrest : ∀ y ∈ xs, p y = true := fun y hy => hxs y (by simp [hy])
    obtain ⟨h1, h2⟩ := ih hrest
    simp [List.takeWhile, List.dropWhile, hx, h1, h2]

theorem tokenWellFormed_pair (m k : Nat) :
    tokenWellFormed (decimalNat m ++ "." ++ decimalNat k) = true := by
  have hdata : (decimalNat m ++ "." ++ decimalNat k).data
      = decimalList m ++ '.' :: decimalList k := by
    show (decimalList m ++ ['.']) ++ decimalList k = _
    rw [List.append_assoc]
    rfl
  have hall : ∀ x ∈ decimalList m, (fun c => c != '.') x = true :=
    fun x hx => isDigitCh_ne_dot x (decimalList_all m x hx)
  obtain ⟨ht, hd⟩ := takeWhile_append_all (fun c => c != '.') (decimalList m)
    (decimalList k) '.' hall (by decide)
  simp only [tokenWellFormed, hdata, ht, hd]
  simp only [decimalList_isEmpty, List.all_eq_true, Bool.not_false, Bool.true_and,
    Bool.and_eq_true]
  exact ⟨decimalList_all m, decimalList_all k⟩

theorem xor64_ofNat (m : Nat) (a : Int) (hm : (m : Int) < 9223372036854775808)
    (ha0 : 0 ≤ a) (ha1 : a < 9223372036854775808) :
    xor64 (m : Int) a = ((m ^^^ a.toNat : Nat) : Int) := by
  unfold xor64 toU64 ofU64
  have hm64 : (m : Int).emod 18446744073709551616 = (m : Int) :=
    Int.emod_eq_of_lt (by positivity) (by linarith)
  have ha64 : a.emod 18446744073709551616 = a :=
    Int.emod_eq_of_lt ha0 (by linarith)
  rw [hm64, ha64, Int.toNat_ofNat]
  have h1 : m < 2 ^ 63 := by omega
  have h2 : a.toNat < 2 ^ 63 := by omega
  have hlt : m ^^^ a.toNat < 9223372036854775808 := by
    have := Nat.xor_lt_two_pow h1 h2
    omega
  rw [if_pos hlt]

theorem decimalInt_ofNat (k : Nat) : decimalInt (k : Int) = decimalNat k := by
  unfold decimalInt
  rw [if_neg (by omega), Int.natAbs_ofNat]

/-- C5 fails as stated: for the key pair `(-1, 0)` and the empty text the
token's second integer is negative and is printed with a minus sign, so
the token does not match `^\d+\.\d+$`. -/
theorem claim_C5_counterexample : tokenWellFormed (derive [] (-1) 0) = false := by decide

/-- C5 (amended).  For every input text and every key pair whose `a` is a
*non-negative* signed 64-bit integer (`0 ≤ a < 2^63`; for negative `a` the
second integer is printed with a minus sign), the token matches
`^\d+\.\d+$`, its first integer lies in `[0, 1_000_000)`, and its second
integer is the first XORed with `a`. -/
theorem claim_C5_amended (text : List Nat) (a b : Int) (h0 : 0 ≤ a)
    (h1 : a < 9223372036854775808) :
    deriveAcc text a b < 1000000 ∧
    derive text a b = decimalNat (deriveAcc text a b) ++ "." ++
      decimalNat (deriveAcc text a b ^^^ a.toNat) ∧
    tokenWellFormed (derive text a b) = true := by
  have hlt : deriveAcc text a b < 1000000 := by
    unfold deriveAcc
    exact Nat.mod_lt _ (by norm_num)
  have heq : derive text a b = decimalNat (deriveAcc text a b) ++ "." ++
      decimalNat (deriveAcc text a b ^^^ a.toNat) := by
    unfold derive
    congr 1
    rw [xor64_ofNat _ a (by exact_mod_cast lt_trans hlt (by norm_num)) h0 h1,
      decimalInt_ofNat]
  exact ⟨hlt, heq, heq ▸ tokenWellFormed_pair _ _⟩

theorem claim_C5_amended_witness :
    deriveAcc [104, 105] 3 7 < 1000000 ∧
    tokenWellFormed (derive [104, 105] 3 7) = true :=
  ⟨(claim_C5_amended [104, 105] 3 7 (by decide) (by decide)).1,
   (claim_C5_amended [104, 105] 3 7 (by decide) (by decide)).2.2⟩

/-- C6 fails as stated: a text holding one supplementary character drives
*two* more loop iterations than the same text with that character removed
(here: expansion lengths 2 versus 0), not one. -/
theorem claim_C6_counterexample :
    ¬ ((expand [65536]).length = (expand []).length + 1) := by decide

/-- C6 (amended).  The expansion is UTF-16: a scalar value `≤ 0xFFFF`
contributes exactly one code unit (itself) and a scalar value `> 0xFFFF`
contributes exactly two (high then low surrogate), so a text containing
one supplementary character drives exactly *two* more loop iterations than
the same text with that character removed (equivalently, one more than
with it replaced by a single BMP scalar). -/
theorem claim_C6_amended :
    (∀ (v : Nat) (rest : List Nat), v ≤ 0xFFFF → expand (v :: rest) = v :: expand rest) ∧
    (∀ (v : Nat) (rest : List Nat), 0xFFFF < v →
        expand (v :: rest) = ((v >>> 10) + 0xD800) :: ((v % 0x400) + 0xDC00) :: expand rest) ∧
    (∀ (xs ys : List Nat) (v : Nat), 0xFFFF < v →
        (expand (xs ++ v :: ys)).length = (expand (xs ++ ys)).length + 2) := by
  have hbmp : ∀ (v : Nat) (rest : List Nat), v ≤ 0xFFFF →
      expand (v :: rest) = v :: expand rest := by
    intro v rest h
    simp [expand, h]
  have hsupp : ∀ (v : Nat) (rest : List Nat), 0xFFFF < v →
      expand (v :: rest) = ((v >>> 10) + 0xD800) :: ((v % 0x400) + 0xDC00) :: expand rest := by
    intro v rest h
    simp [expand, Nat.not_le.mpr h]
  refine ⟨hbmp, hsupp, ?_⟩
  intro xs ys v hv
  induction xs with
  | nil =>
    simp only [List.nil_append]
    rw [hsupp v ys hv]
    simp
  | cons x xs ih =>
    by_cases hx : x ≤ 0xFFFF
    · simp only [List.cons_append, hbmp x _ hx, List.length_cons]
      omega
    · simp only [List.cons_append, hsupp x _ (Nat.not_le.mp hx), List.length_cons]
      omega

theorem claim_C6_amended_witness :
    expand (128512 :: []) =
      ((128512 >>> 10) + 0xD800) :: ((128512 % 0x400) + 0xDC00) :: expand [] ∧
    (expand ([104] ++ 128512 :: [105])).length = (expand ([104] ++ [105])).length + 2 :=
  ⟨claim_C6_amended.2.1 128512 [] (by decide),
   claim_C6_amended.2.2 [104] [105] 128512 (by decide)⟩

/-- C9.  `GetAvaliableLanguagesHTTP` mutates the package-level `languages`
map even when `overwriteDefaultLanguages` is false: the result never
depends on the flag, the post-state table equals the returned table, and
on a concrete page a fresh entry (`zu`) becomes visible to
`GetAvaliableLanguages` and `GetValidLanguageKey` with the flag false. -/
theorem claim_C9 :
    (∀ (st : PkgState) (fetch : PageFetch),
        GetAvaliableLanguagesHTTP st fetch false = GetAvaliableLanguagesHTTP st fetch true) ∧
    (∀ (st : PkgState) (body : String) (ret : List (String × String))
        (err : Option String) (st' : PkgState),
        GetAvaliableLanguagesHTTP st (.page body) false = some ((ret, err), st') →
        GetAvaliableLanguages st' = ret) ∧
    (GetAvaliableLanguagesHTTP ⟨languages⟩ (.page demoPage) false
        = some ((languages ++ [("zu", "zulu")], none), ⟨languages ++ [("zu", "zulu")]⟩) ∧
      mapLookup languages "zu" = none ∧
      GetValidLanguageKey (languages ++ [("zu", "zulu")]) "zu" = ("zu", none) ∧
      GetValidLanguageKey languages "zu"
        = (defaultLanguage, some (invalidLangMsg "zu"))) := by
  refine ⟨?_, ?_, by decide, by decide, by decide, by decide⟩
  · intro st fetch
    cases fetch with
    | doError e => rfl
    | readError e => rfl
    | page body =>
      simp only [GetAvaliableLanguagesHTTP]
      cases scrapeLangs st.languages body.data <;> simp
  · intro st body ret err st' h
    simp only [GetAvaliableLanguagesHTTP] at h
    cases hm : scrapeLangs st.languages body.data with
    | none =>
      rw [hm] at h
      exact absurd h (by simp)
    | some m =>
      rw [hm] at h
      simp only [Bool.false_eq_true, if_false, Option.some.injEq, Prod.mk.injEq] at h
      obtain ⟨⟨hret, _⟩, hst⟩ := h
      rw [← hst, ← hret]
      rfl

theorem claim_C9_witness :
    GetAvaliableLanguages ⟨languages ++ [("zu", "zulu")]⟩ = languages ++ [("zu", "zulu")] :=
  claim_C9.2.1 ⟨languages⟩ demoPage (languages ++ [("zu", "zulu")]) none
    ⟨languages ++ [("zu", "zulu")]⟩ (by decide)

/-- C10.  For every language table order and every input, either
`GetValidLanguageKey` returns some key of the table (with no error) whose
key or value equals the lowercased input, or it returns `defaultLanguage`
with a non-nil error and nothing in the table matches; against the
`languages` table the returned string is always one of its keys, also on
the error path. -/
theorem claim_C10 (m : List (String × String)) (lang : String) :
    ((∃ k v, (k, v) ∈ m ∧ (k = goToLower lang ∨ v = goToLower lang) ∧
        GetValidLanguageKey m lang = (k, none)) ∨
      (GetValidLanguageKey m lang
          = (defaultLanguage, some (invalidLangMsg (goToLower lang))) ∧
        ∀ kv ∈ m, kv.1 ≠ goToLower lang ∧ kv.2 ≠ goToLower lang)) ∧
    (GetValidLanguageKey languages lang).1 ∈ languages.map Prod.fst := by
  constructor
  · cases hf : m.find? (fun kv => kv.1 == goToLower lang || kv.2 == goToLower lang) with
    | some kv =>
      left
      have hmem := List.mem_of_find?_eq_some hf
      have hp := List.find?_some hf
      simp only [Bool.or_eq_true, beq_iff_eq] at hp
      exact ⟨kv.1, kv.2, by simpa using hmem, hp, by simp [GetValidLanguageKey, hf]⟩
    | none =>
      right
      refine ⟨by simp [GetValidLanguageKey, hf], ?_⟩
      intro kv hkv
      have hnot := List.find?_eq_none.mp hf kv hkv
      simp only [Bool.or_eq_true, beq_iff_eq] at hnot
      exact ⟨fun h => hnot (Or.inl h), fun h => hnot (Or.inr h)⟩
  · cases hf : languages.find?
        (fun kv => kv.1 == goToLower lang || kv.2 == goToLower lang) with
    | some kv =>
      have hmem := List.mem_of_find?_eq_some hf
      simp only [GetValidLanguageKey, hf, List.mem_map]
      exact ⟨kv, hmem, rfl⟩
    | none =>
      simp only [GetValidLanguageKey, hf]
      decide

theorem claim_C10_witness :
    (GetValidLanguageKey languages "EN").1 ∈ languages.map Prod.fst :=
  (claim_C10 languages "EN").2

end Translator
